import Mathlib

/-!
Shallow embedding of the simplestruct framework (simplestruct/struct.py):
field descriptors, the MetaStruct type builder, and the Struct instance
lifecycle (construction, equality, hashing, replace, reduce).

Python values stored in fields are modelled by a type parameter `V` with
decidable equality; per-field overridable policies (`Field.eq`,
`Field.hash`) are modelled as function parameters `feq : Field → V → V →
Bool` and `fh : Field → V → Nat` (dynamic dispatch on the field object).
Python object identity of `Field` descriptor instances is modelled by a
numeric id `fid`: `MetaStruct.__new__` copies each declared descriptor
(fresh id) while inherited descriptors are shared unchanged, and tuple
comparison of `_struct` (which falls back to object identity, `Field`
defining no `__eq__`) becomes structural equality on `(fid, name)`.
-/

namespace SimpleStruct

/-- `Field` descriptor: `fid` models Python object identity, `name` is the
attribute name bound by `MetaStruct`. -/
structure Field where
  fid : Nat
  name : String
deriving DecidableEq, Repr

/-- `Field.copy` as used by `MetaStruct.__new__`: a fresh descriptor object
(new identity `newId`), whose `name` is then set to the attribute name. -/
def Field.copyAs (_f : Field) (newId : Nat) (fname : String) : Field :=
  { fid := newId, name := fname }

/-- The default `Field.eq`: `val1 == val2` (value equality). -/
def defEq {V : Type} [DecidableEq V] : Field → V → V → Bool :=
  fun _ v1 v2 => decide (v1 = v2)

/-- A Struct class as produced by `MetaStruct.__new__`: class identity
`cid`, method-resolution-order ids `mro` (for `isinstance`), the frozen
`_struct` schema tuple, and the `_immutable` flag.  Python guarantees a
class appears in its own MRO. -/
structure StructClass where
  cid : Nat
  mro : List Nat
  struct : List Field
  immutable : Bool
  self_mem : cid ∈ mro

/-- A Struct instance: its runtime class, its attribute store restricted to
field values (`getattr(inst, name)`), and the `_initialized` flag. -/
structure StructInst (V : Type) where
  cls : StructClass
  getVal : String → V
  initialized : Bool

/-- `isinstance(i, c)`: `c` occurs in the MRO of `i`'s runtime class. -/
def isinst {V : Type} (i : StructInst V) (c : StructClass) : Bool :=
  decide (c.cid ∈ i.cls.mro)

/-- `Field.__get__` with a bound instance: return the stored value. -/
def field_get {V : Type} (f : Field) (i : StructInst V) : V :=
  i.getVal f.name

/-- `Field.__set__`: raises `AttributeError` (`none`) iff the Struct is
immutable and has finished initializing; otherwise stores the value. -/
def field_set {V : Type} (f : Field) (i : StructInst V) (v : V) :
    Option (StructInst V) :=
  if i.cls.immutable ∧ i.initialized then none
  else some { i with getVal := fun m => if m = f.name then v else i.getVal m }

/-- `hash_seq`: `reduce(lambda x, y: x ^ y, seq, 0)`, a left xor-fold
starting from zero. -/
def hash_seq (seq : List Nat) : Nat :=
  seq.foldl (fun x y => x ^^^ y) 0

/-- `Struct.__eq__`: `none` models returning `NotImplemented` (punt to the
other operand); otherwise the boolean result.  Schema tuples are compared
first, then each field's `eq` policy pairwise in schema order. -/
def structEq {V : Type} (feq : Field → V → V → Bool)
    (a b : StructInst V) : Option Bool :=
  if ¬ isinst a b.cls then none
  else if a.cls.struct ≠ b.cls.struct then some false
  else some (a.cls.struct.all
    (fun f => feq f (a.getVal f.name) (b.getVal f.name)))

/-- `Struct.__hash__`: `TypeError` (`none`) on a mutable or uninitialized
Struct; otherwise the xor-fold of the per-field hashes in schema order. -/
def struct_hash {V : Type} (fh : Field → V → Nat) (i : StructInst V) :
    Option Nat :=
  if ¬ i.cls.immutable then none
  else if ¬ i.initialized then none
  else some (hash_seq (i.cls.struct.map (fun f => fh f (i.getVal f.name))))

/-- Sequential `setattr` of (name, value) pairs on an attribute store:
later writes win, as in Python. -/
def writeAll {V : Type} (g : String → V) :
    List (String × V) → (String → V)
  | [] => g
  | p :: rest => writeAll (fun m => if m = p.1 then p.2 else g m) rest

/-- `Struct.__new__` followed by `MetaStruct.__call__` for positional
arguments: `_signature.bind` succeeds iff the argument count matches the
field count (every parameter is positional-or-keyword with no default);
each bound value is written through its field's descriptor in schema order
(`_initialized` is `False` throughout, so `Field.__set__` stores), and
`_initialized` is set to `True` once construction returns. -/
def struct_new {V : Type} [Inhabited V] (cls : StructClass) (args : List V) :
    Option (StructInst V) :=
  if args.length = cls.struct.length then
    some { cls := cls,
           getVal := writeAll (fun _ => default)
             ((cls.struct.map Field.name).zip args),
           initialized := true }
  else none

/-- `Struct.__reduce_ex__`: the pair of the exact runtime class and the
current field values in schema order. -/
def reduce_ex {V : Type} (i : StructInst V) : StructClass × List V :=
  (i.cls, i.cls.struct.map (fun f => i.getVal f.name))

/-- `Struct._replace`: current field values, overridden at the names bound
in `ov`, passed to the ordinary constructor of the exact runtime type. -/
def struct_replace {V : Type} [Inhabited V] (i : StructInst V)
    (ov : List (String × V)) : Option (StructInst V) :=
  struct_new i.cls
    (i.cls.struct.map (fun f => ((ov.lookup f.name).getD (i.getVal f.name))))

/-- First-occurrence key order of a list, as iteration over a Python
`Counter` (insertion-ordered dict) yields. -/
def uniqKeys (l : List String) : List String :=
  l.foldl (fun acc n => if n ∈ acc then acc else acc ++ [n]) []

/-- `collided` in `MetaStruct.__new__`: the keys of
`Counter(f.name for f in fields)` whose count exceeds one, in first
occurrence order. -/
def collidedNames (fields : List Field) : List String :=
  (uniqKeys (fields.map Field.name)).filter
    (fun n => 1 < (fields.map Field.name).count n)

/-- The field-gathering loop over the class namespace: each item whose
value is a `Field` (or `Field` subclass, instantiated with no args) is
copied with a fresh identity and given the attribute name, in encounter
order.  `decls` lists the field-valued namespace items; fresh identities
are `nextId`, `nextId+1`, …. -/
def gatherOwn : List (String × Field) → Nat → List Field
  | [], _ => []
  | (fname, f) :: rest, k => f.copyAs k fname :: gatherOwn rest (k + 1)

/-- The full field list of `MetaStruct.__new__`: if `_inherit_fields`, the
bases' `_struct` tuples concatenated left to right (shared, not copied),
then this class's own fields. -/
def gatherFields (inherit : Bool) (bases : List StructClass)
    (own : List Field) : List Field :=
  (if inherit then bases.foldl (fun acc b => acc ++ b.struct) [] else [])
    ++ own

/-- `MetaStruct.__new__`: gather fields, reject name collisions listing
every colliding name, and freeze the schema on the new class.  `decls`
lists the namespace mapping's field-valued items in order; when reached
from an actual class body its keys are unique, the namespace being a dict
(see `namespaceOf` and `metaStructNewBody`).  `cid` is the new class's
identity; its MRO is itself followed by the bases' MROs. -/
def metaStructNew (clsname : String) (inherit : Bool) (immutable : Bool)
    (bases : List StructClass) (decls : List (String × Field))
    (cid nextId : Nat) : Except String StructClass :=
  let fields := gatherFields inherit bases (gatherOwn decls nextId)
  let collided := collidedNames fields
  if collided.isEmpty then
    Except.ok
      { cid := cid
        mro := cid :: bases.foldl (fun acc b => acc ++ b.mro) []
        struct := fields
        immutable := immutable
        self_mem := List.mem_cons_self cid _ }
  else
    Except.error ("Struct " ++ clsname ++ " has colliding field name(s): "
      ++ String.intercalate ", " collided)

/-- One assignment statement executed against the class-body namespace
(an `OrderedDict`, from `MetaStruct.__prepare__`): assigning to a name
already bound overwrites its value in place (the key keeps its original
position); assigning to a new name appends it. -/
def dictInsert (ns : List (String × Field)) (p : String × Field) :
    List (String × Field) :=
  if ns.any (fun q => q.1 = p.1) then
    ns.map (fun q => if q.1 = p.1 then (q.1, p.2) else q)
  else ns ++ [p]

/-- The namespace mapping produced by executing a class body's field
assignments in order.  Its keys are unique: a second assignment to the
same name replaces the first binding rather than adding an entry. -/
def namespaceOf (body : List (String × Field)) : List (String × Field) :=
  body.foldl dictInsert []

/-- `MetaStruct.__new__` as reached from an actual class declaration: the
namespace it receives is the dict built by executing the body's
assignments, so duplicate own declarations collapse to one item before
fields are gathered. -/
def metaStructNewBody (clsname : String) (inherit immutable : Bool)
    (bases : List StructClass) (body : List (String × Field))
    (cid k : Nat) : Except String StructClass :=
  metaStructNew clsname inherit immutable bases (namespaceOf body) cid k

/-- Modelled from the spec: the no-duplicates scan of `checktype_seq`
(`struct/type.py` itself is absent from `src/`; only its tests are
present).  "Scan for the first repeated element (by equality) and report
its value and the position of the second occurrence": walk the sequence
left to right with the set of elements seen so far, stopping at the first
element already seen. -/
def findDup {α : Type} [DecidableEq α] : List α → Nat → List α → Option (α × Nat)
  | [], _, _ => none
  | x :: rest, i, seen =>
      if x ∈ seen then some (x, i) else findDup rest (i + 1) (x :: seen)

/-- Modelled from the spec: the duplicate check of
`checktype_seq(seq, T, nodups=True)` on a type-correct sequence, returning
the first repeated value and the 0-based position of its second
occurrence, or `none` if there is no repeat. -/
def checkNodups {α : Type} [DecidableEq α] (l : List α) : Option (α × Nat) :=
  findDup l 0 []

/-- Modelled from the spec: the failure message of the duplicate check, as
asserted by the tests (`Duplicate element 5 at position 2`). -/
def dupMsg (v : Int) (i : Nat) : String :=
  "Duplicate element " ++ toString v ++ " at position " ++ toString i

/-- Modelled from the spec: `checktype_seq` restricted to a type-correct
`int` sequence with `nodups=True` — succeeds iff the duplicate scan finds
no repeat, else raises `TypeError` with the duplicate message. -/
def checktype_seq_nodups (l : List Int) : Except String Unit :=
  match checkNodups l with
  | none => Except.ok ()
  | some (v, i) => Except.error (dupMsg v i)

/-! Concrete sample classes and instances, used to exercise the
definitions on closed inputs. -/

/-- Sample field `x` (descriptor object id 0). -/
def fX : Field := ⟨0, "x"⟩

/-- Sample field `y` (descriptor object id 1). -/
def fY : Field := ⟨1, "y"⟩

/-- A sample immutable Struct class with fields `x`, `y`. -/
def clsA : StructClass := ⟨0, [0], [fX, fY], true, by simp⟩

/-- A sample mutable Struct class with fields `x`, `y`. -/
def clsMut : StructClass := ⟨1, [1], [fX, fY], false, by simp⟩

/-- An initialized instance of `clsA` with `x = 3`, `y = 4`. -/
def iA : StructInst Int :=
  ⟨clsA, fun n => if n = "x" then 3 else if n = "y" then 4 else 0, true⟩

/-- An initialized instance of `clsA` with the two field values swapped:
`x = 4`, `y = 3`. -/
def iASwap : StructInst Int :=
  ⟨clsA, fun n => if n = "x" then 4 else if n = "y" then 3 else 0, true⟩

/-- An initialized instance of the mutable class `clsMut`. -/
def iMut : StructInst Int :=
  ⟨clsMut, fun n => if n = "x" then 3 else if n = "y" then 4 else 0, true⟩

/-- The result of writing `9` to field `x` of `iMut` (the write succeeds
because `clsMut` is mutable). -/
def iMutUpd : StructInst Int := (field_set fX iMut 9).getD iMut

/-- An uninitialized (under construction) instance of `clsA`. -/
def iAUnder : StructInst Int :=
  ⟨clsA, fun n => if n = "x" then 3 else if n = "y" then 4 else 0, false⟩

/-- The model hash policy for sample instances: the stored integer itself
(clamped to `Nat`). -/
def intHash : Field → Int → Nat := fun _ v => v.toNat

/-- A sample namespace declaration list with a single field item `x`
(the declared template descriptor has id 7 and no name bound yet). -/
def declsX : List (String × Field) := [("x", ⟨7, ""⟩)]

/-- A class as `MetaStruct` would build it from `declsX` with fresh ids
starting at 0: an "independently declared" type with one field `x`. -/
def clsP : StructClass := ⟨2, [2], gatherOwn declsX 0, true, by simp⟩

/-- A second, independently declared class with the same field name `x`,
whose descriptor copy got the later fresh id 5. -/
def clsQ : StructClass := ⟨3, [3], gatherOwn declsX 5, true, by simp⟩

/-- An initialized instance of `clsP` with `x = 1`. -/
def iP : StructInst Int := ⟨clsP, fun _ => 1, true⟩

/-- An initialized instance of `clsQ` with `x = 1`. -/
def iQ : StructInst Int := ⟨clsQ, fun _ => 1, true⟩

/-- A sample declaration list with a single field item `z`. -/
def declsZ : List (String × Field) := [("z", ⟨9, ""⟩)]

/-- A class-body assignment sequence that assigns a `Field` to the name
`x` twice: the second assignment overwrites the first binding. -/
def declsXX : List (String × Field) := [("x", ⟨7, ""⟩), ("x", ⟨8, ""⟩)]

instance : RightCommutative (fun (x y : Nat) => x ^^^ y) :=
  ⟨fun b a₁ a₂ => by simp [Nat.xor_assoc, Nat.xor_comm a₁ a₂]⟩

/-- C1: if neither instance's type is the same as or a subtype of the
other's, `Struct.__eq__` returns `NotImplemented` (delegates) rather than
`False`; when `a`'s type is the same as or a subtype of `b`'s, `a == b`
holds iff the resolved field schemas are identical and every field's
equality predicate holds on the pair of stored values in schema order, and
differing schemas give `False`. -/
theorem struct_eq_spec {V : Type} [DecidableEq V] (feq : Field → V → V → Bool)
    (a b : StructInst V) :
    (isinst a b.cls = false ∧ isinst b a.cls = false →
      structEq feq a b = none) ∧
    (isinst a b.cls = true →
      ((structEq feq a b = some true ↔
         (a.cls.struct = b.cls.struct ∧
          ∀ f ∈ a.cls.struct,
            feq f (a.getVal f.name) (b.getVal f.name) = true)) ∧
       (a.cls.struct ≠ b.cls.struct → structEq feq a b = some false))) := by
  refine ⟨fun h => ?_, fun h => ⟨?_, fun hne => ?_⟩⟩
  · simp [structEq, h.1]
  · by_cases hs : a.cls.struct = b.cls.struct
    · simp [structEq, h, hs, List.all_eq_true]
    · simp [structEq, h, hs]
  · simp [structEq, h, hne]

/-- C1 witness: `iA` and `iMut` have unrelated classes, so comparison
delegates. -/
theorem struct_eq_spec_witness : structEq defEq iA iMut = none :=
  (struct_eq_spec defEq iA iMut).1 ⟨by decide, by decide⟩

/-- C2: writing to a field raises (`none`) iff the instance's type is
immutable and the instance has finished construction; in every other case
the write stores the value, which the next read of that field returns. -/
theorem field_set_spec {V : Type} (f : Field) (i : StructInst V) (v : V) :
    (field_set f i v = none ↔
      (i.cls.immutable = true ∧ i.initialized = true)) ∧
    (∀ i', field_set f i v = some i' → field_get f i' = v) := by
  constructor
  · by_cases h : i.cls.immutable = true ∧ i.initialized = true
    · simp [field_set, h]
    · simp only [field_set, eq_self_iff_true]
      rw [if_neg (by simpa using h)]
      simp [h]
  · intro i' hi'
    by_cases h : i.cls.immutable = true ∧ i.initialized = true
    · simp [field_set, h] at hi'
    · rw [field_set, if_neg (by simpa using h)] at hi'
      cases hi'
      simp [field_get]

/-- C2 witness: the same write that would fail on an immutable instance
succeeds on the mutable `iMut`, and the next read returns the value. -/
theorem field_set_spec_witness :
    field_set fX iMut 9 = some iMutUpd ∧ field_get fX iMutUpd = 9 :=
  ⟨rfl, (field_set_spec fX iMut 9).2 iMutUpd rfl⟩

/-- C3: hashing raises (`none`) iff the type is mutable or the instance
has not finished construction; on an initialized instance of an immutable
type it succeeds, and being a pure function of the unchanged instance,
repeated calls agree. -/
theorem struct_hash_defined_spec {V : Type} (fh : Field → V → Nat)
    (i : StructInst V) :
    (struct_hash fh i = none ↔
      (i.cls.immutable = false ∨ i.initialized = false)) ∧
    (i.cls.immutable = true → i.initialized = true →
      ∃ h, struct_hash fh i = some h ∧ struct_hash fh i = some h) := by
  constructor
  · rcases hm : i.cls.immutable with _ | _ <;>
      rcases hi : i.initialized with _ | _ <;>
      simp [struct_hash, hm, hi]
  · intro hm hi
    refine ⟨hash_seq (i.cls.struct.map (fun f => fh f (i.getVal f.name))),
      ?_, ?_⟩ <;> simp [struct_hash, hm, hi]

/-- C3 witness: hashing the initialized immutable `iA` succeeds (twice,
with the same value). -/
theorem struct_hash_defined_spec_witness :
    ∃ h, struct_hash intHash iA = some h ∧ struct_hash intHash iA = some h :=
  (struct_hash_defined_spec intHash iA).2 rfl rfl

/-- The xor-fold is invariant under permutation of its input list. -/
theorem hash_seq_perm {l₁ l₂ : List Nat} (h : l₁.Perm l₂) :
    hash_seq l₁ = hash_seq l₂ :=
  h.foldl_eq 0

/-- C4: on an initialized instance of an immutable type the hash is the
bitwise-xor fold, from zero, of the per-field hashes of the stored values;
hence any two such instances of the same type whose multisets of per-field
hash values coincide hash equally. -/
theorem struct_hash_xor_spec {V : Type} (fh : Field → V → Nat)
    (i : StructInst V) (hm : i.cls.immutable = true)
    (hi : i.initialized = true) :
    struct_hash fh i =
      some ((i.cls.struct.map (fun f => fh f (i.getVal f.name))).foldl
        (fun x y => x ^^^ y) 0) ∧
    ∀ j : StructInst V, j.cls = i.cls → j.initialized = true →
      ((j.cls.struct.map (fun f => fh f (j.getVal f.name)) : Multiset Nat) =
        (i.cls.struct.map (fun f => fh f (i.getVal f.name)) : Multiset Nat)) →
      struct_hash fh j = struct_hash fh i := by
  constructor
  · simp [struct_hash, hm, hi, hash_seq]
  · intro j hj hji hmul
    have hperm := Multiset.coe_eq_coe.mp hmul
    rw [hj] at hperm
    simp only [struct_hash, hj, hji, hm, hi, Bool.not_true, not_false_iff,
      Bool.false_eq_true, if_false, hash_seq]
    exact congrArg some (hperm.foldl_eq 0)

/-- C4 witness: `iASwap` swaps the two field values of `iA`; the multisets
of per-field hashes coincide, so the hashes agree. -/
theorem struct_hash_xor_spec_witness :
    struct_hash intHash iASwap = struct_hash intHash iA :=
  (struct_hash_xor_spec intHash iA rfl rfl).2 iASwap rfl rfl (by decide)

/-- Writing the pairs `(n, g n)` over `names` into an attribute store in
order amounts to pointwise lookup: names in the list read back through
`g`, others through the base store. -/
theorem writeAll_lookup {V : Type} (g : String → V) :
    ∀ (names : List String) (base : String → V) (n : String),
      writeAll base (names.zip (names.map g)) n =
        if n ∈ names then g n else base n := by
  intro names
  induction names with
  | nil => intro base n; simp [writeAll]
  | cons m rest ih =>
    intro base n
    rw [List.map_cons, List.zip_cons_cons, writeAll]
    rw [ih]
    by_cases hr : n ∈ rest
    · simp [hr]
    · by_cases hm : n = m
      · simp [hr, hm]
      · simp [hr, hm]

/-- Reconstructing an instance through the ordinary constructor from its
current field values in schema order succeeds and yields a copy of the
same class that compares equal to the original. -/
theorem struct_new_copy {V : Type} [DecidableEq V] [Inhabited V]
    (i : StructInst V) :
    ∃ i', struct_new i.cls (i.cls.struct.map (fun f => i.getVal f.name))
        = some i' ∧
      i'.cls = i.cls ∧ structEq defEq i' i = some true := by
  refine ⟨{ cls := i.cls,
            getVal := writeAll (fun _ => default)
              ((i.cls.struct.map Field.name).zip
                (i.cls.struct.map (fun f => i.getVal f.name))),
            initialized := true }, ?_, rfl, ?_⟩
  · rw [struct_new, if_pos (by simp)]
  · have hvals : ∀ f ∈ i.cls.struct,
        writeAll (fun _ => default)
          ((i.cls.struct.map Field.name).zip
            (i.cls.struct.map (fun f => i.getVal f.name))) f.name
          = i.getVal f.name := by
      intro f hf
      have hmap : i.cls.struct.map (fun f => i.getVal f.name)
          = (i.cls.struct.map Field.name).map i.getVal := by
        rw [List.map_map]; rfl
      rw [hmap, writeAll_lookup]
      rw [if_pos (List.mem_map_of_mem Field.name hf)]
    have hinst : isinst
        (StructInst.mk i.cls (writeAll (fun _ => default)
          ((i.cls.struct.map Field.name).zip
            (i.cls.struct.map (fun f => i.getVal f.name)))) true) i.cls
        = true := by
      simp [isinst, i.cls.self_mem]
    rw [structEq]
    rw [if_neg (by simp [hinst])]
    rw [if_neg (by simp)]
    refine congrArg some (List.all_eq_true.mpr ?_)
    intro f hf
    simp [defEq, hvals f hf]

/-- C5: the serialization hook exports the exact runtime class and the
tuple of current field values in schema order, and calling the ordinary
constructor on those values yields an instance equal to the original. -/
theorem reduce_roundtrip_spec {V : Type} [DecidableEq V] [Inhabited V]
    (i : StructInst V) (_hi : i.initialized = true) :
    reduce_ex i = (i.cls, i.cls.struct.map (fun f => i.getVal f.name)) ∧
    ∃ i', struct_new (reduce_ex i).1 (reduce_ex i).2 = some i' ∧
      i'.cls = i.cls ∧ structEq defEq i' i = some true :=
  ⟨rfl, struct_new_copy i⟩

/-- C5 witness: round-tripping `iA` through `reduce_ex` and the
constructor yields an equal instance. -/
theorem reduce_roundtrip_spec_witness :
    iA.initialized = true ∧
    ∃ i', struct_new (reduce_ex iA).1 (reduce_ex iA).2 = some i' ∧
      i'.cls = iA.cls ∧ structEq defEq i' iA = some true :=
  ⟨rfl, (reduce_roundtrip_spec iA rfl).2⟩

/-- C6: `_replace` with no overrides builds, through the ordinary
constructor, a new instance of the same exact runtime type that is equal
to the original. -/
theorem replace_copy_spec {V : Type} [DecidableEq V] [Inhabited V]
    (i : StructInst V) (_hi : i.initialized = true) :
    ∃ i', struct_replace i [] = some i' ∧ i'.cls = i.cls ∧
      structEq defEq i' i = some true :=
  struct_new_copy i

/-- C6 witness: `_replace` of `iA` with no overrides is equal to `iA`. -/
theorem replace_copy_spec_witness :
    iA.initialized = true ∧
    ∃ i', struct_replace iA [] = some i' ∧ i'.cls = iA.cls ∧
      structEq defEq i' iA = some true :=
  ⟨rfl, (replace_copy_spec iA rfl)⟩

/-- Membership in the first-occurrence fold of `uniqKeys`, generalized
over the accumulator. -/
theorem mem_foldl_uniq (n : String) :
    ∀ (l acc : List String),
      (n ∈ l.foldl (fun acc m => if m ∈ acc then acc else acc ++ [m]) acc)
        ↔ (n ∈ acc ∨ n ∈ l) := by
  intro l
  induction l with
  | nil => intro acc; simp
  | cons m rest ih =>
    intro acc
    rw [List.foldl_cons, ih]
    by_cases hm : m ∈ acc
    · rw [if_pos hm]
      simp only [List.mem_cons]
      constructor
      · rintro (h | h)
        · exact Or.inl h
        · exact Or.inr (Or.inr h)
      · rintro (h | h | h)
        · exact Or.inl h
        · exact Or.inl (h ▸ hm)
        · exact Or.inr h
    · rw [if_neg hm]
      simp only [List.mem_append, List.mem_singleton, List.mem_cons]
      tauto

/-- A name is listed among the collided names exactly when it occurs more
than once among the schema's field names. -/
theorem mem_collidedNames (fs : List Field) (n : String) :
    n ∈ collidedNames fs ↔ 1 < (fs.map Field.name).count n := by
  rw [collidedNames, List.mem_filter]
  constructor
  · rintro ⟨-, h⟩
    simpa using h
  · intro h
    refine ⟨?_, by simpa using h⟩
    rw [uniqKeys, mem_foldl_uniq]
    right
    exact List.count_pos_iff.mp (by omega)

/-- `MetaStruct.__new__` succeeds when the gathered field names do not
collide, freezing exactly the gathered schema on the class. -/
theorem metaStructNew_ok (clsname : String) (inherit immutable : Bool)
    (bases : List StructClass) (decls : List (String × Field)) (cid k : Nat)
    (h : collidedNames (gatherFields inherit bases (gatherOwn decls k))
      = []) :
    (metaStructNew clsname inherit immutable bases decls cid k).map
        StructClass.struct
      = Except.ok (gatherFields inherit bases (gatherOwn decls k)) := by
  simp [metaStructNew, h, Except.map]

/-- `MetaStruct.__new__` fails when the gathered field names collide, with
the message naming the class and the collided names. -/
theorem metaStructNew_error (clsname : String) (inherit immutable : Bool)
    (bases : List StructClass) (decls : List (String × Field)) (cid k : Nat)
    (h : collidedNames (gatherFields inherit bases (gatherOwn decls k))
      ≠ []) :
    metaStructNew clsname inherit immutable bases decls cid k =
      Except.error ("Struct " ++ clsname ++ " has colliding field name(s): "
        ++ String.intercalate ", "
          (collidedNames (gatherFields inherit bases (gatherOwn decls k))))
    := by
  simp [metaStructNew, List.isEmpty_iff, h]

/-- Folding base schemas by append, as the inheritance loop does, is the
left-to-right concatenation of the bases' field lists. -/
theorem foldl_append_struct (bases : List StructClass) :
    ∀ acc : List Field,
      bases.foldl (fun a b => a ++ b.struct) acc
        = acc ++ (bases.map StructClass.struct).flatten := by
  induction bases with
  | nil => intro acc; simp
  | cons b rest ih =>
    intro acc
    rw [List.foldl_cons, ih]
    simp

/-- The copied own fields carry the declared attribute names in encounter
order. -/
theorem gatherOwn_names :
    ∀ (decls : List (String × Field)) (k : Nat),
      (gatherOwn decls k).map Field.name = decls.map Prod.fst := by
  intro decls
  induction decls with
  | nil => intro k; rfl
  | cons d rest ih =>
    intro k
    cases d
    simp [gatherOwn, Field.copyAs, ih]

/-- If any field name appears more than once among the gathered fields,
`MetaStruct.__new__` fails with an error listing every name that occurs
more than once (general helper over an arbitrary namespace item list). -/
theorem collided_error_of_dup (clsname : String) (inherit immutable : Bool)
    (bases : List StructClass) (decls : List (String × Field)) (cid k : Nat)
    (h : ∃ n, 1 < ((gatherFields inherit bases (gatherOwn decls k)).map
      Field.name).count n) :
    metaStructNew clsname inherit immutable bases decls cid k =
      Except.error ("Struct " ++ clsname ++ " has colliding field name(s): "
        ++ String.intercalate ", "
          (collidedNames (gatherFields inherit bases (gatherOwn decls k))))
    ∧ ∀ n, 1 < ((gatherFields inherit bases (gatherOwn decls k)).map
        Field.name).count n →
      n ∈ collidedNames (gatherFields inherit bases (gatherOwn decls k))
    := by
  obtain ⟨n, hn⟩ := h
  have hne : collidedNames (gatherFields inherit bases (gatherOwn decls k))
      ≠ [] := by
    intro he
    have hmem := (mem_collidedNames _ n).mpr hn
    rw [he] at hmem
    exact absurd hmem (List.not_mem_nil n)
  exact ⟨metaStructNew_error clsname inherit immutable bases decls cid k hne,
    fun m hm => (mem_collidedNames _ m).mpr hm⟩

/-- Executing one assignment preserves the namespace's key sequence when
the name is already bound, and appends the new name otherwise. -/
theorem keys_dictInsert (ns : List (String × Field)) (p : String × Field) :
    (dictInsert ns p).map Prod.fst =
      if ns.any (fun q => q.1 = p.1) then ns.map Prod.fst
      else ns.map Prod.fst ++ [p.1] := by
  rw [dictInsert]
  by_cases h : ns.any (fun q => q.1 = p.1) = true
  · rw [if_pos h, if_pos h, List.map_map]
    apply List.map_congr_left
    intro q hq
    by_cases hq1 : q.1 = p.1
    · simp [hq1]
    · simp [hq1]
  · rw [if_neg h, if_neg h]
    simp

/-- The class-body namespace is a dict: its keys are unique, however many
times the body assigns to the same name. -/
theorem namespaceOf_keys_nodup (body : List (String × Field)) :
    ((namespaceOf body).map Prod.fst).Nodup := by
  suffices haux : ∀ (b acc : List (String × Field)),
      (acc.map Prod.fst).Nodup → ((b.foldl dictInsert acc).map Prod.fst).Nodup
    from haux body [] List.nodup_nil
  intro b
  induction b with
  | nil => intro acc h; exact h
  | cons p rest ih =>
    intro acc h
    rw [List.foldl_cons]
    apply ih
    rw [keys_dictInsert]
    by_cases hany : acc.any (fun q => q.1 = p.1) = true
    · rw [if_pos hany]
      exact h
    · rw [if_neg hany]
      have hnotin : p.1 ∉ acc.map Prod.fst := by
        intro hmem
        obtain ⟨q, hq, hq1⟩ := List.mem_map.mp hmem
        exact hany (List.any_eq_true.mpr ⟨q, hq, by simp [hq1]⟩)
      rw [List.nodup_append]
      exact ⟨h, List.nodup_singleton p.1,
        fun a ha hax => hnotin ((List.mem_singleton.mp hax) ▸ ha)⟩

/-- Duplicate-free field names produce no collided names. -/
theorem collidedNames_eq_nil_of_nodup {fs : List Field}
    (h : (fs.map Field.name).Nodup) : collidedNames fs = [] := by
  rw [collidedNames, List.filter_eq_nil_iff]
  intro n hn
  have hle := List.nodup_iff_count_le_one.mp h n
  simp only [decide_eq_true_eq]
  omega

/-- C7 counterexample: declaring two fields named `x` in one class body
does not raise a collision error — the second assignment overwrites the
first in the namespace dict, so the class is created with a single field
`x`. -/
theorem collision_body_counterexample :
    (metaStructNewBody "Foo" false true [] declsXX 7 10).map
        StructClass.struct
      = Except.ok [Field.mk 10 "x"] := rfl

/-- C7 (amended): if any field name appears more than once in the final
merged schema, type definition fails with an error listing every colliding
name; but the class-body namespace is a dict with unique keys, so own
declarations alone never collide — without base-field inheritance the
definition always succeeds — and a collision can only arise when
`_inherit_fields` merges base fields with each other or with own fields. -/
theorem collision_error_amended_spec (clsname : String)
    (inherit immutable : Bool) (bases : List StructClass)
    (body : List (String × Field)) (cid k : Nat) :
    ((∃ n, 1 < ((gatherFields inherit bases
        (gatherOwn (namespaceOf body) k)).map Field.name).count n) →
      metaStructNewBody clsname inherit immutable bases body cid k =
        Except.error ("Struct " ++ clsname
          ++ " has colliding field name(s): " ++ String.intercalate ", "
          (collidedNames (gatherFields inherit bases
            (gatherOwn (namespaceOf body) k)))) ∧
      ∀ n, 1 < ((gatherFields inherit bases
          (gatherOwn (namespaceOf body) k)).map Field.name).count n →
        n ∈ collidedNames (gatherFields inherit bases
          (gatherOwn (namespaceOf body) k))) ∧
    ((namespaceOf body).map Prod.fst).Nodup ∧
    (metaStructNewBody clsname false immutable bases body cid k).map
        StructClass.struct = Except.ok (gatherOwn (namespaceOf body) k) := by
  refine ⟨fun h => ?_, namespaceOf_keys_nodup body, ?_⟩
  · exact collided_error_of_dup clsname inherit immutable bases
      (namespaceOf body) cid k h
  · rw [metaStructNewBody]
    have hok := metaStructNew_ok clsname false immutable bases
      (namespaceOf body) cid k
      (collidedNames_eq_nil_of_nodup (by
        rw [gatherFields]
        simp only [Bool.false_eq_true, if_false, List.nil_append]
        rw [gatherOwn_names]
        exact namespaceOf_keys_nodup body))
    rw [hok, gatherFields]
    simp

/-- C7 witness: a subclass that inherits the fields of `clsA` (which has a
field `x`) and itself declares `x` raises the collision error, with `x`
listed; the subclass's own namespace keys are duplicate-free. -/
theorem collision_error_amended_spec_witness :
    metaStructNewBody "Sub" true true [clsA] declsX 5 10 =
      Except.error ("Struct " ++ "Sub" ++ " has colliding field name(s): "
        ++ String.intercalate ", "
          (collidedNames (gatherFields true [clsA]
            (gatherOwn (namespaceOf declsX) 10)))) ∧
    "x" ∈ collidedNames (gatherFields true [clsA]
      (gatherOwn (namespaceOf declsX) 10)) ∧
    ((namespaceOf declsX).map Prod.fst).Nodup := by
  have h := (collision_error_amended_spec "Sub" true true [clsA] declsX
    5 10).1 ⟨"x", by decide⟩
  exact ⟨h.1, h.2 "x" (by decide),
    (collision_error_amended_spec "Sub" true true [clsA] declsX 5 10).2.1⟩

/-- C8: with `_inherit_fields` set, the frozen schema is each base's field
list concatenated left to right, followed by this type's own fields in
declaration order (own fields carrying the declared names); with the flag
unset the bases' fields are not included. -/
theorem schema_inherit_spec (clsname : String) (immutable : Bool)
    (bases : List StructClass) (decls : List (String × Field)) (cid k : Nat) :
    (collidedNames (gatherFields true bases (gatherOwn decls k)) = [] →
      (metaStructNew clsname true immutable bases decls cid k).map
          StructClass.struct
        = Except.ok ((bases.map StructClass.struct).flatten
            ++ gatherOwn decls k)) ∧
    (collidedNames (gatherFields false bases (gatherOwn decls k)) = [] →
      (metaStructNew clsname false immutable bases decls cid k).map
          StructClass.struct
        = Except.ok (gatherOwn decls k)) ∧
    (gatherOwn decls k).map Field.name = decls.map Prod.fst := by
  refine ⟨fun h => ?_, fun h => ?_, gatherOwn_names decls k⟩
  · rw [metaStructNew_ok clsname true immutable bases decls cid k h,
      gatherFields]
    simp [foldl_append_struct]
  · rw [metaStructNew_ok clsname false immutable bases decls cid k h,
      gatherFields]
    simp

/-- C8 witness: a type inheriting from `clsA` and declaring `z` gets
schema `x, y, z`; without the flag it gets only `z`. -/
theorem schema_inherit_spec_witness :
    (metaStructNew "Sub" true true [clsA] declsZ 5 10).map StructClass.struct
      = Except.ok (([clsA].map StructClass.struct).flatten
          ++ gatherOwn declsZ 10) ∧
    (metaStructNew "Solo" false true [clsA] declsZ 6 10).map
        StructClass.struct
      = Except.ok (gatherOwn declsZ 10) :=
  ⟨(schema_inherit_spec "Sub" true [clsA] declsZ 5 10).1 (by decide),
   (schema_inherit_spec "Solo" true [clsA] declsZ 6 10).2.1 (by decide)⟩

/-- The duplicate scan reports nothing exactly when the remaining input
has no duplicates and shares nothing with the seen set. -/
theorem findDup_none {α : Type} [DecidableEq α] :
    ∀ (l seen : List α) (i : Nat),
      findDup l i seen = none ↔ (l.Nodup ∧ ∀ x ∈ l, x ∉ seen) := by
  intro l
  induction l with
  | nil => intro seen i; simp [findDup]
  | cons x rest ih =>
    intro seen i
    rw [findDup]
    by_cases hx : x ∈ seen
    · rw [if_pos hx]
      simp only [List.nodup_cons, List.mem_cons]
      constructor
      · intro h; cases h
      · rintro ⟨-, h⟩
        exact absurd hx (h x (Or.inl rfl))
    · rw [if_neg hx, ih]
      simp only [List.nodup_cons, List.mem_cons]
      constructor
      · rintro ⟨hnd, hs⟩
        have hxr : x ∉ rest := fun hm => (hs x hm) (Or.inl rfl)
        refine ⟨⟨hxr, hnd⟩, ?_⟩
        rintro y (rfl | hy)
        · exact hx
        · intro hys
          exact (hs y hy) (Or.inr hys)
      · rintro ⟨⟨hxr, hnd⟩, hs⟩
        refine ⟨hnd, ?_⟩
        intro y hy hyx
        rcases hyx with rfl | hys
        · exact hxr hy
        · exact (hs y (Or.inr hy)) hys

/-- The scan started empty reports nothing exactly on duplicate-free
input. -/
theorem checkNodups_none {α : Type} [DecidableEq α] (l : List α) :
    checkNodups l = none ↔ l.Nodup := by
  rw [checkNodups, findDup_none]
  simp

/-- In a duplicate-free list no position repeats an earlier element. -/
theorem nodup_no_early_dup {α : Type} [DecidableEq α] {p : List α}
    (hp : p.Nodup) {j : Nat} (hj : j < p.length) {w : α}
    (hw : p[j]? = some w) : w ∉ p.take j := by
  intro hmem
  obtain ⟨k, hk, hkw⟩ := List.mem_take_iff_getElem.mp hmem
  have hkj : k < j := lt_of_lt_of_le hk (min_le_left _ _)
  have hjw : p[j] = w := by
    rw [List.getElem?_eq_getElem hj] at hw
    exact Option.some.inj hw
  have hkjeq : k = j := (hp.getElem_inj_iff).mp (by rw [hkw, hjw])
  omega

/-- Invariant of the duplicate scan, with `p` the processed prefix: a
reported pair `(v, i)` satisfies `v` at position `i` of the full list,
exactly one earlier occurrence of `v` (so `i` is the second occurrence),
and no earlier position repeats (so `v` is the first repeated element). -/
theorem findDup_go {α : Type} [DecidableEq α] :
    ∀ (l p : List α), p.Nodup →
      ∀ (v : α) (i : Nat),
        findDup l p.length p.reverse = some (v, i) →
        (p ++ l)[i]? = some v ∧
        ((p ++ l).take i).count v = 1 ∧
        ∀ j, j < i → ∀ w, (p ++ l)[j]? = some w → w ∉ (p ++ l).take j := by
  intro l
  induction l with
  | nil =>
    intro p hp v i h
    simp [findDup] at h
  | cons x rest ih =>
    intro p hp v i h
    rw [findDup] at h
    by_cases hx : x ∈ p.reverse
    · rw [if_pos hx] at h
      have hxp : x ∈ p := List.mem_reverse.mp hx
      obtain ⟨rfl, rfl⟩ : x = v ∧ p.length = i := by
        injection h with h'
        injection h' with h1 h2
        exact ⟨h1, h2⟩
      refine ⟨?_, ?_, ?_⟩
      · rw [List.getElem?_append_right (le_refl p.length)]
        simp
      · rw [List.take_append_of_le_length (le_refl p.length),
          List.take_length]
        exact List.count_eq_one_of_mem hp hxp
      · intro j hj w hw
        rw [List.getElem?_append, if_pos hj] at hw
        rw [List.take_append_of_le_length (by omega)]
        exact nodup_no_early_dup hp hj hw
    · rw [if_neg hx] at h
      have hxp : x ∉ p := fun hm => hx (List.mem_reverse.mpr hm)
      have hrev : x :: p.reverse = (p ++ [x]).reverse := by simp
      have hlen : p.length + 1 = (p ++ [x]).length := by simp
      rw [hlen, hrev] at h
      have hp' : (p ++ [x]).Nodup := by
        rw [List.nodup_append]
        exact ⟨hp, List.nodup_singleton x,
          fun a ha hax => hxp ((List.mem_singleton.mp hax) ▸ ha)⟩
      have hres := ih (p ++ [x]) hp' v i h
      simpa [List.append_assoc] using hres

/-- C9 (spec-modelled): the no-duplicates validation scans for the first
repeated element by equality and reports its value with the 0-based
position of its second occurrence; `[5,3,5,8]` is rejected reporting
duplicate `5` at position 2, while `[5,3,8]` is accepted. -/
theorem nodups_scan_spec (l : List Int) :
    (checkNodups l = none ↔ l.Nodup) ∧
    (∀ v i, checkNodups l = some (v, i) →
      l[i]? = some v ∧ (l.take i).count v = 1 ∧
      ∀ j, j < i → ∀ w, l[j]? = some w → w ∉ l.take j) ∧
    checktype_seq_nodups [5, 3, 5, 8] =
      Except.error "Duplicate element 5 at position 2" ∧
    checktype_seq_nodups [5, 3, 8] = Except.ok () := by
  refine ⟨checkNodups_none l, ?_, rfl, rfl⟩
  intro v i h
  have hgo := findDup_go l [] List.nodup_nil v i h
  simpa using hgo

/-- C9 witness: on `[5,3,5,8]` the scan reports value `5` at position 2,
the position of the second occurrence of the first repeated element. -/
theorem nodups_scan_spec_witness :
    checkNodups ([5, 3, 5, 8] : List Int) = some (5, 2) ∧
    ([5, 3, 5, 8] : List Int)[2]? = some 5 ∧
    (([5, 3, 5, 8] : List Int).take 2).count 5 = 1 := by
  have h := (nodups_scan_spec [5, 3, 5, 8]).2.1 5 2 (by decide)
  exact ⟨by decide, h.1, h.2.1⟩

/-- Instances whose classes carry different schema tuples never compare
equal, whatever the per-field equality policy. -/
theorem structEq_ne_of_schema_ne {V : Type} [DecidableEq V]
    (feq : Field → V → V → Bool) (a b : StructInst V)
    (h : a.cls.struct ≠ b.cls.struct) : structEq feq a b ≠ some true := by
  by_cases hi : isinst a b.cls = true
  · simp [structEq, hi, h]
  · simp [structEq, hi]

/-- A class built with no bases and no inheritance freezes exactly the
copies of its own declared fields. -/
theorem metaStructNew_ok_inv (clsname : String) (immutable : Bool)
    (decls : List (String × Field)) (c k : Nat) (s : List Field) :
    (metaStructNew clsname false immutable [] decls c k).map
        StructClass.struct = Except.ok s →
    s = gatherOwn decls k := by
  intro h
  by_cases hc : collidedNames (gatherFields false [] (gatherOwn decls k))
      = []
  · rw [metaStructNew_ok clsname false immutable [] decls c k hc] at h
    have hs := Except.ok.inj h
    rw [← hs, gatherFields]
    simp
  · rw [metaStructNew_error clsname false immutable [] decls c k hc] at h
    simp [Except.map] at h

/-- Field copies handed out from disjoint fresh-identity ranges give
distinct schema tuples, whatever the declared names. -/
theorem gatherOwn_ne (decls1 decls2 : List (String × Field)) (k1 k2 : Nat)
    (h1 : decls1 ≠ []) (hk : k1 + decls1.length ≤ k2) :
    gatherOwn decls1 k1 ≠ gatherOwn decls2 k2 := by
  cases decls1 with
  | nil => exact absurd rfl h1
  | cons d1 r1 =>
    cases decls2 with
    | nil =>
      cases d1
      simp [gatherOwn]
    | cons d2 r2 =>
      intro hcon
      have hhead : (gatherOwn (d1 :: r1) k1).head?
          = (gatherOwn (d2 :: r2) k2).head? := by rw [hcon]
      cases d1
      cases d2
      simp only [gatherOwn, Field.copyAs, List.head?_cons,
        Option.some.injEq, Field.mk.injEq] at hhead
      simp only [List.length_cons] at hk
      omega

/-- C10: with `_inherit_fields` set, a subclass's schema reuses the very
descriptor objects of its bases (a subclass of `B` adding no fields has
`B`'s schema, and instances with identical schemas and matching values
compare equal under the default policies); whereas two independently
declared types — whose own descriptor copies come from disjoint fresh
identity ranges — are never schema-equal, and their instances never
compare equal, whatever the field names, values and equality policy. -/
theorem descriptor_identity_spec {V : Type} [DecidableEq V] :
    (∀ (clsname : String) (immut : Bool) (B : StructClass) (cid k : Nat),
      collidedNames B.struct = [] →
      (metaStructNew clsname true immut [B] [] cid k).map StructClass.struct
        = Except.ok B.struct) ∧
    (∀ (a b : StructInst V), a.cls.struct = b.cls.struct →
      isinst a b.cls = true →
      (∀ f ∈ a.cls.struct, a.getVal f.name = b.getVal f.name) →
      structEq defEq a b = some true) ∧
    (∀ (n1 n2 : String) (im1 im2 : Bool)
      (decls1 decls2 : List (String × Field)) (c1 c2 k1 k2 : Nat)
      (a b : StructInst V),
      decls1 ≠ [] → k1 + decls1.length ≤ k2 →
      (metaStructNew n1 false im1 [] decls1 c1 k1).map StructClass.struct
        = Except.ok a.cls.struct →
      (metaStructNew n2 false im2 [] decls2 c2 k2).map StructClass.struct
        = Except.ok b.cls.struct →
      a.cls.struct ≠ b.cls.struct ∧
        ∀ feq : Field → V → V → Bool, structEq feq a b ≠ some true) := by
  refine ⟨?_, ?_, ?_⟩
  · intro clsname immut B cid k hB
    have h : collidedNames (gatherFields true [B] (gatherOwn [] k)) = []
        := by simpa [gatherFields, gatherOwn] using hB
    rw [metaStructNew_ok clsname true immut [B] [] cid k h]
    congr 1
    simp [gatherFields, gatherOwn]
  · intro a b hs hinst hvals
    rw [structEq, if_neg (by simp [hinst]), if_neg (by simp [hs])]
    refine congrArg some (List.all_eq_true.mpr ?_)
    intro f hf
    simp [defEq, hvals f hf]
  · intro n1 n2 im1 im2 decls1 decls2 c1 c2 k1 k2 a b hne hk ha hb
    have ha' : a.cls.struct = gatherOwn decls1 k1 :=
      metaStructNew_ok_inv n1 im1 decls1 c1 k1 a.cls.struct ha
    have hb' : b.cls.struct = gatherOwn decls2 k2 :=
      metaStructNew_ok_inv n2 im2 decls2 c2 k2 b.cls.struct hb
    have hsne : a.cls.struct ≠ b.cls.struct := by
      rw [ha', hb']
      exact gatherOwn_ne decls1 decls2 k1 k2 hne hk
    exact ⟨hsne, fun feq => structEq_ne_of_schema_ne feq a b hsne⟩

/-- C10 witness: a subclass of `clsA` declaring nothing reuses `clsA`'s
schema; `iP` compares equal to itself; the independently declared `clsP`
and `clsQ`, both with one field `x`, are not schema-equal and `iP`, `iQ`
never compare equal. -/
theorem descriptor_identity_spec_witness :
    ((metaStructNew "Sub" true true [clsA] [] 5 10).map StructClass.struct
      = Except.ok clsA.struct) ∧
    structEq defEq iP iP = some true ∧
    (iP.cls.struct ≠ iQ.cls.struct ∧
      ∀ feq : Field → Int → Int → Bool, structEq feq iP iQ ≠ some true) :=
  ⟨(descriptor_identity_spec (V := Int)).1 "Sub" true clsA 5 10 (by decide),
   (descriptor_identity_spec (V := Int)).2.1 iP iP rfl (by decide)
     (fun _ _ => rfl),
   (descriptor_identity_spec (V := Int)).2.2 "P" "Q" true true declsX declsX
     2 3 0 5 iP iQ (by decide) (by decide) rfl rfl⟩

end SimpleStruct
